import Mathlib

set_option maxRecDepth 100000

/-!
Verification of the ascii-motion core (`src/lib/ascii.ts`): image-to-ASCII
grid sampling, brightness-to-character mapping, background estimation, and
the frame-perturbation animation.  Pixel acquisition (canvas decode/rescale)
is the external collaborator; the embedding starts from the decoded RGBA
buffer.  JS numeric arithmetic is carried exactly in ℚ; the one place the
source can read the buffer out of bounds (see `computeBackgroundBrightness`)
is modelled by an `Option ℚ` result, `none` standing for the NaN that such a
read produces in JS.
-/

namespace AsciiMotion

/-- One RGBA pixel of the decoded buffer; channel byte values carried as
rationals so the brightness arithmetic of the source stays exact. -/
structure Pixel where
  r : ℚ
  g : ℚ
  b : ℚ
  a : ℚ
deriving DecidableEq

/-- Decoded raster image: width, height and the RGBA buffer addressed by
pixel coordinates (`pix x y` is the pixel in column x, row y). -/
structure Image where
  width : ℕ
  height : ℕ
  pix : ℕ → ℕ → Pixel

/-- ascii.ts line 2: the fixed character ramp, dense end first, trailing
blank. -/
def ASCII_RAMP : List Char :=
  "@#%&$8BWM*oahkbdpqwmZO0QLCJUYXzcvunxrjft/|()1\x7b\x7d[]?-_+~<>i!lI;:,\x22^`. ".toList

/-- ascii.ts lines 5-15: entity escaping for the five XML-reserved
characters. -/
def escapeXml (c : Char) : String :=
  if c = '&' then "&amp;"
  else if c = '<' then "&lt;"
  else if c = '>' then "&gt;"
  else if c = '\x22' then "&quot;"
  else if c = '\x27' then "&apos;"
  else String.singleton c

/-- ascii.ts line 128: `0.299 * r + 0.587 * g + 0.114 * b`. -/
def luminance (p : Pixel) : ℚ :=
  299 / 1000 * p.r + 587 / 1000 * p.g + 114 / 1000 * p.b

/-- The conversion options of ascii.ts lines 56-64 (source defaults:
cellWidth 6, cellHeight 9, maxWidth 120, fontSize 8, coverageThreshold 0.3,
color #d4d4d4, removeBackground false). -/
structure AsciiOptions where
  cellWidth : ℕ
  cellHeight : ℕ
  maxWidth : ℕ
  fontSize : ℕ
  coverageThreshold : ℚ
  color : String
  removeBackground : Bool

def defaultOptions : AsciiOptions :=
  { cellWidth := 6
    cellHeight := 9
    maxWidth := 120
    fontSize := 8
    coverageThreshold := 3 / 10
    color := "#d4d4d4"
    removeBackground := false }

/-- One placed glyph (ascii.ts lines 27-32, 158-163). -/
structure AsciiCell where
  char : Char
  x : ℕ
  y : ℕ
  brightness : ℚ
deriving DecidableEq

/-- The result record of ascii.ts lines 34-41. -/
structure AsciiSvgResult where
  svg : String
  cells : List AsciiCell
  svgWidth : ℕ
  svgHeight : ℕ
  gridCols : ℕ
  gridRows : ℕ

/-- ascii.ts lines 70-77: when `floor(width / cellWidth)` exceeds maxWidth,
both dimensions are multiplied by `maxWidth / cols` and floored. -/
def scaledDims (w h cw maxW : ℕ) : ℕ × ℕ :=
  let cols := w / cw
  if maxW < cols then
    (⌊(w : ℚ) * ((maxW : ℚ) / (cols : ℚ))⌋.toNat,
     ⌊(h : ℚ) * ((maxW : ℚ) / (cols : ℚ))⌋.toNat)
  else (w, h)

/-- Integers from `s` (inclusive) to `e` (exclusive). -/
def intRange (s e : ℤ) : List ℤ :=
  (List.range (e - s).toNat).map (fun (i : ℕ) => s + (i : ℤ))

/-- The (x, y) coordinates sampled by `computeBackgroundBrightness`
(ascii.ts lines 275-291), in loop order: four corner cells; each y runs from
the corner's y while `y < corner.y + cellHeight && y < imgHeight`, each x
likewise with an `if (x < 0) continue` skip.  There is no matching skip for
`y < 0`, so the list can contain coordinates with a negative y. -/
def cbbSample (w h cw ch : ℤ) : List (ℤ × ℤ) :=
  ([(0, 0), (w - cw, 0), (0, h - ch), (w - cw, h - ch)] : List (ℤ × ℤ)).flatMap
    (fun c => (intRange c.2 (min (c.2 + ch) h)).flatMap
      (fun y => ((intRange c.1 (min (c.1 + cw) w)).filter (fun x => 0 ≤ x)).map
        (fun x => (x, y))))

/-- ascii.ts lines 264-294: average corner-cell luminance, `128` when no
pixel is sampled.  A sampled coordinate with negative y is an out-of-bounds
buffer read; in JS it yields `undefined`, poisoning the accumulated total
with NaN, so the function returns NaN — modelled as `none`. -/
def computeBackgroundBrightness (img : Image) (cw ch : ℕ) : Option ℚ :=
  let pts := cbbSample (img.width : ℤ) (img.height : ℤ) (cw : ℤ) (ch : ℤ)
  if pts.length = 0 then some 128
  else if pts.all (fun p => 0 ≤ p.2) then
    some ((pts.map (fun p => luminance (img.pix p.1.toNat p.2.toNat))).sum
      / (pts.length : ℚ))
  else none

/-- ascii.ts line 238: `Math.max(8, Math.floor(Math.min(w, h) * 0.05))`. -/
def edgeSizeOf (w h : ℕ) : ℕ :=
  max 8 (⌊(min w h : ℚ) * (5 / 100 : ℚ)⌋.toNat)

/-- The border-band coordinates scanned by `sampleBackgroundColor`
(ascii.ts lines 240-243): every pixel of the image that is not in the
interior rectangle, in row-major order. -/
def borderSample (w h e : ℕ) : List (ℕ × ℕ) :=
  ((List.range h).flatMap (fun y => (List.range w).map (fun x => (x, y)))).filter
    (fun p => ! decide (e ≤ p.1 ∧ p.1 < w - e ∧ e ≤ p.2 ∧ p.2 < h - e))

/-- ascii.ts lines 231-259: mean border color over pixels with alpha ≥ 128,
white when no pixel qualifies; each channel mean is `Math.round`ed. -/
def sampleBackgroundColor (img : Image) : ℚ × ℚ × ℚ :=
  let e := edgeSizeOf img.width img.height
  let elig := (borderSample img.width img.height e).filter
    (fun p => ! decide ((img.pix p.1 p.2).a < 128))
  if elig.length = 0 then (255, 255, 255)
  else
    (((round ((elig.map (fun p => (img.pix p.1 p.2).r)).sum / (elig.length : ℚ)) : ℤ) : ℚ),
     ((round ((elig.map (fun p => (img.pix p.1 p.2).g)).sum / (elig.length : ℚ)) : ℤ) : ℚ),
     ((round ((elig.map (fun p => (img.pix p.1 p.2).b)).sum / (elig.length : ℚ)) : ℤ) : ℚ))

/-- Squared Euclidean RGB distance to the background estimate.  The source
(ascii.ts lines 92-96) compares `Math.sqrt(dr*dr + dg*dg + db*db) < 50`;
both sides being nonnegative, that comparison is equivalent to
`dr*dr + dg*dg + db*db < 2500`, which keeps the model inside ℚ. -/
def distSqToBg (p : Pixel) (bg : ℚ × ℚ × ℚ) : ℚ :=
  (p.r - bg.1) ^ 2 + (p.g - bg.2.1) ^ 2 + (p.b - bg.2.2) ^ 2

/-- ascii.ts lines 88-100: the background-removal pass over the working
buffer copy — pixels whose color is close to the sampled background color
get their alpha forced to 0; everything else is untouched. -/
def removeBackgroundPass (img : Image) : Image :=
  let bg := sampleBackgroundColor img
  { img with pix := fun x y =>
      let p := img.pix x y
      if distSqToBg p bg < 2500 then { p with a := 0 } else p }

/-- The buffer the grid scan reads: the working copy after the optional
background-removal mutation (ascii.ts lines 88-100). -/
def effectiveImage (img : Image) (opts : AsciiOptions) : Image :=
  if opts.removeBackground then removeBackgroundPass img else img

/-- ascii.ts line 135: a pixel counts as covered when
`a > 128 && Math.abs(brightness - bgBrightness) > 30`; with a NaN
background (`none`) the comparison is false. -/
def coveredPixel (bg : Option ℚ) (p : Pixel) : Bool :=
  decide (128 < p.a) &&
    (match bg with
      | some v => decide (30 < |luminance p - v|)
      | none => false)

/-- The coordinates one cell loop visits along one axis (ascii.ts lines
121-122): from `start` while `< start + len && < bound`. -/
def axisCoords (start len bound : ℕ) : List ℕ :=
  ((List.range len).map (fun i => start + i)).filter (fun v => v < bound)

/-- All pixel coordinates of the cell at grid position (col, row), y outer,
x inner, exactly as the loops of ascii.ts lines 121-122 visit them. -/
def cellCoords (img : Image) (cw chH col row : ℕ) : List (ℕ × ℕ) :=
  (axisCoords (row * chH) chH img.height).flatMap
    (fun y => (axisCoords (col * cw) cw img.width).map (fun x => (x, y)))

def cellPixels (img : Image) (cw chH col row : ℕ) : List Pixel :=
  (cellCoords img cw chH col row).map (fun p => img.pix p.1 p.2)

def cellTotalPixels (img : Image) (cw chH col row : ℕ) : ℕ :=
  (cellPixels img cw chH col row).length

def cellCoveredPixels (img : Image) (bg : Option ℚ) (cw chH col row : ℕ) : ℕ :=
  ((cellPixels img cw chH col row).filter (coveredPixel bg)).length

/-- ascii.ts line 141: `coveredPixels / totalPixels`. -/
def cellCoverage (img : Image) (bg : Option ℚ) (cw chH col row : ℕ) : ℚ :=
  (cellCoveredPixels img bg cw chH col row : ℚ) / (cellTotalPixels img cw chH col row : ℚ)

/-- ascii.ts line 146: `totalBrightness / totalPixels`. -/
def cellAvgBrightness (img : Image) (cw chH col row : ℕ) : ℚ :=
  ((cellPixels img cw chH col row).map luminance).sum / (cellTotalPixels img cw chH col row : ℚ)

/-- ascii.ts lines 150-153: clamp the average brightness to [0, 255], then
`Math.floor(((255 - normalized) / 255) * (ASCII_RAMP.length - 1))`.  The
floored value is never negative, so `toNat` is exact. -/
def rampIndex (avg : ℚ) : ℕ :=
  (⌊(255 - max 0 (min 255 avg)) / 255 * ((ASCII_RAMP.length : ℚ) - 1)⌋).toNat

/-- `ASCII_RAMP[i]`; the default (an unused NUL, not a ramp character)
stands for the `undefined` a JS out-of-range string index would give. -/
def rampCharAt (i : ℕ) : Char := ASCII_RAMP.getD i '\x00'

/-- ascii.ts line 154: the character selected for an average brightness. -/
def rampChar (avg : ℚ) : Char := rampCharAt (rampIndex avg)

/-- ascii.ts lines 114-163: one grid cell of the scan; `some` is the glyph
the cell pushes, `none` a skip (low coverage, or blank character). -/
def emitCell (img : Image) (bg : Option ℚ) (opts : AsciiOptions) (col row : ℕ) :
    Option AsciiCell :=
  if cellCoverage img bg opts.cellWidth opts.cellHeight col row < opts.coverageThreshold
  then none
  else
    let avg := cellAvgBrightness img opts.cellWidth opts.cellHeight col row
    if rampChar avg = ' ' then none
    else some
      { char := rampChar avg
        x := col * opts.cellWidth
        y := row * opts.cellHeight + opts.cellHeight
        brightness := avg }

/-- ascii.ts lines 112-165: the row-major grid scan. -/
def scanCells (img : Image) (bg : Option ℚ) (opts : AsciiOptions) : List AsciiCell :=
  (List.range (img.height / opts.cellHeight)).flatMap
    (fun row => (List.range (img.width / opts.cellWidth)).filterMap
      (fun col => emitCell img bg opts col row))

/-- The SVG document of ascii.ts lines 171-178 / 214-221. -/
def renderSvg (w h fontSize : ℕ) (color : String) (cells : List AsciiCell) : String :=
  "<svg xmlns=\x22http://www.w3.org/2000/svg\x22 width=\x22" ++ toString w
    ++ "\x22 height=\x22" ++ toString h
    ++ "\x22 viewBox=\x220 0 " ++ toString w ++ " " ++ toString h ++ "\x22>\n"
    ++ "  <style>text \x7b font-family: monospace; font-size: "
    ++ toString fontSize ++ "px; fill: " ++ color ++ "; \x7d</style>\n"
    ++ String.join (cells.map (fun c =>
        "  <text x=\x22" ++ toString c.x ++ "\x22 y=\x22" ++ toString c.y
          ++ "\x22>" ++ escapeXml c.char ++ "</text>\n"))
    ++ "</svg>"

/-- ascii.ts lines 52-181, starting from the decoded pixel buffer.  The
canvas `drawImage`/`getImageData` pair is the external pixel-acquisition
collaborator, so `img` is the buffer read back at the already-scaled
dimensions (`scaledDims` above models the dimension arithmetic of lines
70-77, which runs before that read-back). -/
def imageToAsciiSvg (img : Image) (opts : AsciiOptions) : AsciiSvgResult :=
  let eff := effectiveImage img opts
  let bg := computeBackgroundBrightness eff opts.cellWidth opts.cellHeight
  let cells := scanCells eff bg opts
  let gridCols := img.width / opts.cellWidth
  let gridRows := img.height / opts.cellHeight
  { svg := renderSvg (gridCols * opts.cellWidth) (gridRows * opts.cellHeight)
      opts.fontSize opts.color cells
    cells := cells
    svgWidth := gridCols * opts.cellWidth
    svgHeight := gridRows * opts.cellHeight
    gridCols := gridCols
    gridRows := gridRows }

/-- JS `String.prototype.indexOf` on the ramp: first index of the
character, `-1` when absent (ascii.ts line 198). -/
def jsIndexOf (l : List Char) (c : Char) : ℤ :=
  if c ∈ l then (l.indexOf c : ℤ) else -1

/-- ascii.ts lines 195-212: one glyph of one animation frame.  `rng` is the
stream of successive `Math.random()` results and `k` the number of draws
consumed so far; the gate draw always happens, the shift draw only when the
gate passes and the character was found in the ramp. -/
def perturbCell (rng : ℕ → ℚ) (k : ℕ) (cell : AsciiCell) : AsciiCell × ℕ :=
  if rng k < 15 / 100 then
    if 0 ≤ jsIndexOf ASCII_RAMP cell.char then
      let shift := ⌊rng (k + 1) * 3⌋ - 1
      let newIdx := max 0 (min ((ASCII_RAMP.length : ℤ) - 1)
        (jsIndexOf ASCII_RAMP cell.char + shift))
      if rampCharAt newIdx.toNat = ' ' then (cell, k + 2)
      else ({ cell with char := rampCharAt newIdx.toNat }, k + 2)
    else (cell, k + 1)
  else (cell, k + 1)

/-- The `baseResult.cells.map(...)` of ascii.ts lines 195-212, threading the
random stream left to right. -/
def perturbCells (rng : ℕ → ℚ) (cells : List AsciiCell) (k : ℕ) :
    List AsciiCell × ℕ :=
  match cells with
  | [] => ([], k)
  | c :: cs =>
    let r := perturbCell rng k c
    let rest := perturbCells rng cs r.2
    (r.1 :: rest.1, rest.2)

/-- The cell lists of the frames after the base one: each re-derives from
the same base cell list (never from the previous frame). -/
def animCellFrames (rng : ℕ → ℚ) (base : List AsciiCell) : ℕ → ℕ → List (List AsciiCell)
  | 0, _ => []
  | Nat.succ n, k =>
    let r := perturbCells rng base k
    r.1 :: animCellFrames rng base n r.2

/-- ascii.ts lines 186-226 (source defaults: frameCount 8, fontSize 8,
color #d4d4d4).  Frame 0 is the base result's svg string verbatim; each
later frame perturbs the base cells and re-serializes them. -/
def createAsciiSvgAnimation (rng : ℕ → ℚ) (baseResult : AsciiSvgResult)
    (frameCount : ℕ) (fontSize : ℕ) (color : String) : List String :=
  baseResult.svg ::
    (animCellFrames rng baseResult.cells (frameCount - 1) 0).map
      (fun cs => renderSvg baseResult.svgWidth baseResult.svgHeight fontSize color cs)

/-- A solid black opaque pixel. -/
def blackPixel : Pixel := ⟨0, 0, 0, 255⟩

/-- A solid white opaque pixel. -/
def whitePixel : Pixel := ⟨255, 255, 255, 255⟩

/-- The synthetic round-trip image of the spec: 12x18 pixels, the top-left
6x9 cell solid black, the other three cells solid white. -/
def roundTripImage : Image :=
  ⟨12, 18, fun x y => if x < 6 ∧ y < 9 then blackPixel else whitePixel⟩

/-- A flat 1x1 opaque white image. -/
def flatWhite1 : Image := ⟨1, 1, fun _ _ => whitePixel⟩

/-- Default options with 1x1 cells and coverage threshold 0. -/
def zeroThresholdOptions : AsciiOptions :=
  { defaultOptions with cellWidth := 1, cellHeight := 1, coverageThreshold := 0 }

/-- An image with no pixels at all. -/
def emptyImage : Image := ⟨0, 0, fun _ _ => whitePixel⟩

/-- A one-glyph base result used to exercise the animation stage. -/
def testBase : AsciiSvgResult :=
  { svg := "<svg>base</svg>"
    cells := [⟨'@', 0, 9, 255⟩]
    svgWidth := 6
    svgHeight := 9
    gridCols := 1
    gridRows := 1 }

/-! ## Helper lemmas -/

theorem mem_intRange {s e x : ℤ} : x ∈ intRange s e ↔ s ≤ x ∧ x < e := by
  simp only [intRange, List.mem_map, List.mem_range]
  constructor
  · rintro ⟨i, hi, rfl⟩
    omega
  · rintro ⟨h1, h2⟩
    exact ⟨(x - s).toNat, by omega, by omega⟩

theorem mem_axisCoords {start len bound v : ℕ} :
    v ∈ axisCoords start len bound ↔ start ≤ v ∧ v < start + len ∧ v < bound := by
  simp only [axisCoords, List.mem_filter, List.mem_map, List.mem_range,
    decide_eq_true_eq]
  constructor
  · rintro ⟨⟨i, hi, rfl⟩, hb⟩
    omega
  · rintro ⟨h1, h2, h3⟩
    exact ⟨⟨v - start, by omega, by omega⟩, h3⟩

theorem mem_cellCoords {img : Image} {cw chH col row : ℕ} {q : ℕ × ℕ} :
    q ∈ cellCoords img cw chH col row →
    q.1 < img.width ∧ q.2 < img.height := by
  intro hq
  simp only [cellCoords, List.mem_flatMap, List.mem_map] at hq
  obtain ⟨y, hy, x, hx, rfl⟩ := hq
  exact ⟨(mem_axisCoords.mp hx).2.2, (mem_axisCoords.mp hy).2.2⟩

theorem cellTotalPixels_pos {img : Image} {cw chH col row : ℕ}
    (hcw : 0 < cw) (hch : 0 < chH)
    (hcol : col < img.width / cw) (hrow : row < img.height / chH) :
    0 < cellTotalPixels img cw chH col row := by
  have hx : col * cw < img.width := by
    have h1 : (col + 1) * cw ≤ (img.width / cw) * cw :=
      Nat.mul_le_mul_right cw hcol
    have h2 : (img.width / cw) * cw ≤ img.width := Nat.div_mul_le_self _ _
    nlinarith
  have hy : row * chH < img.height := by
    have h1 : (row + 1) * chH ≤ (img.height / chH) * chH :=
      Nat.mul_le_mul_right chH hrow
    have h2 : (img.height / chH) * chH ≤ img.height := Nat.div_mul_le_self _ _
    nlinarith
  have hmem : ((col * cw, row * chH) : ℕ × ℕ) ∈ cellCoords img cw chH col row := by
    simp only [cellCoords, List.mem_flatMap, List.mem_map]
    exact ⟨row * chH, mem_axisCoords.mpr ⟨le_rfl, by omega, hy⟩,
      col * cw, mem_axisCoords.mpr ⟨le_rfl, by omega, hx⟩, rfl⟩
  have : cellCoords img cw chH col row ≠ [] := List.ne_nil_of_mem hmem
  simp only [cellTotalPixels, cellPixels, List.length_map]
  exact List.length_pos.mpr this

/-! ## Claim theorems -/

/-- C10: every cell the grid scan visits (row < gridRows, col < gridCols)
contains at least one in-bounds pixel, so `coveredPixels / totalPixels` is a
well-defined rational in [0, 1] and never 0/0. -/
theorem visited_cell_coverage_wellDefined (img : Image) (bg : Option ℚ)
    (cw chH col row : ℕ) (hcw : 0 < cw) (hch : 0 < chH)
    (hcol : col < img.width / cw) (hrow : row < img.height / chH) :
    0 < cellTotalPixels img cw chH col row ∧
    0 ≤ cellCoverage img bg cw chH col row ∧
    cellCoverage img bg cw chH col row ≤ 1 := by
  have htot := cellTotalPixels_pos hcw hch hcol hrow
  have htotQ : (0 : ℚ) < (cellTotalPixels img cw chH col row : ℚ) := by
    exact_mod_cast htot
  have hle : cellCoveredPixels img bg cw chH col row ≤ cellTotalPixels img cw chH col row :=
    List.length_filter_le _ _
  refine ⟨htot, ?_, ?_⟩
  · exact div_nonneg (by positivity) (le_of_lt htotQ)
  · rw [cellCoverage, div_le_one htotQ]
    exact_mod_cast hle

theorem visited_cell_coverage_wellDefined_witness :
    0 < cellTotalPixels roundTripImage 6 9 0 0 ∧
    0 ≤ cellCoverage roundTripImage none 6 9 0 0 ∧
    cellCoverage roundTripImage none 6 9 0 0 ≤ 1 :=
  visited_cell_coverage_wellDefined roundTripImage none 6 9 0 0
    (by decide) (by decide) (by decide) (by decide)

/-- C2: the code maps brightness 0 to the blank end of the ramp (index 67 =
rampLength - 1, the trailing space) and brightness 255 to the dense end
(index 0, the character '@') — the exact reverse of the claimed (and of the
inline comment's) dark-to-dense endpoint convention.  The in-range part of
the claim is true; the endpoint orientation is what fails. -/
theorem rampIndex_endpoints :
    ASCII_RAMP.length = 68 ∧
    rampIndex 0 = 67 ∧ rampChar 0 = ' ' ∧
    rampIndex 255 = 0 ∧ rampChar 255 = '@' :=
  of_decide_eq_true (by with_unfolding_all rfl)

/-- C1: evaluation of the full pipeline at the spec's synthetic 12x18
scenario with the default configuration.  The black cell (0,0) emits no
glyph (its average brightness 0 maps to the ramp's blank character, which
line 156 suppresses), while each of the three white cells emits an '@'
glyph (brightness 255 maps to ramp index 0, and |255 - 191.25| = 63.75
exceeds the brightness delta threshold 30, so the white cells are fully
covered) — the reverse of the claimed output. -/
theorem roundTrip_eval :
    (imageToAsciiSvg roundTripImage defaultOptions).cells =
      [⟨'@', 6, 9, 255⟩, ⟨'@', 0, 18, 255⟩, ⟨'@', 6, 18, 255⟩] ∧
    (∀ c ∈ (imageToAsciiSvg roundTripImage defaultOptions).cells,
      ¬(c.x = 0 ∧ c.y = 9)) :=
  of_decide_eq_true (by with_unfolding_all rfl)

/-- C7: with width = height = 1, cellWidth = 1, cellHeight = 2, the corner
sampling of `computeBackgroundBrightness` visits the coordinate (0, -1) —
buffer byte index (-1 * 1 + 0) * 4 = -4, an out-of-bounds read (the code
skips x < 0 but has no matching skip for y < 0) — and the background
estimate is the NaN outcome. -/
theorem cbbSample_out_of_bounds :
    ((0 : ℤ), (-1 : ℤ)) ∈ cbbSample 1 1 1 2 ∧
    computeBackgroundBrightness ⟨1, 1, fun _ _ => whitePixel⟩ 1 2 = none :=
  of_decide_eq_true (by with_unfolding_all rfl)

/-- C3 counterexample: a perfectly flat (1x1 solid white, opaque) image with
the valid configuration cellWidth = cellHeight = 1, coverageThreshold = 0 —
a value the claim's range [0, 1] admits: the coverage ratio is 0, yet
`coverage < 0` is false, so the cell is not skipped and an '@' glyph is
emitted. -/
theorem flat_zero_threshold_emits :
    cellCoverage flatWhite1 (computeBackgroundBrightness flatWhite1 1 1) 1 1 0 0 = 0 ∧
    (imageToAsciiSvg flatWhite1 zeroThresholdOptions).cells = [⟨'@', 0, 1, 255⟩] :=
  of_decide_eq_true (by with_unfolding_all rfl)

/-- C8: degenerate sampling regions fall back to neutral defaults: an empty
corner sample yields brightness 128, an empty eligible border sample (every
border pixel transparent, or no pixels at all) yields white. -/
theorem degenerate_sampling_fallbacks (img : Image) (cw ch : ℕ)
    (hb : cbbSample (img.width : ℤ) (img.height : ℤ) (cw : ℤ) (ch : ℤ) = [])
    (hc : (borderSample img.width img.height (edgeSizeOf img.width img.height)).filter
      (fun p => ! decide ((img.pix p.1 p.2).a < 128)) = []) :
    computeBackgroundBrightness img cw ch = some 128 ∧
    sampleBackgroundColor img = (255, 255, 255) := by
  constructor
  · simp [computeBackgroundBrightness, hb]
  · simp [sampleBackgroundColor, hc]

theorem degenerate_sampling_fallbacks_witness :
    computeBackgroundBrightness emptyImage 6 9 = some 128 ∧
    sampleBackgroundColor emptyImage = (255, 255, 255) :=
  degenerate_sampling_fallbacks emptyImage 6 9
    (of_decide_eq_true (by with_unfolding_all rfl))
    (of_decide_eq_true (by with_unfolding_all rfl))

/-- C9: the background-removal pass preserves every pixel's R, G, B
channels; it zeroes the alpha of exactly the pixels whose RGB distance to
the estimated background color is strictly below the threshold (distance
< 50, i.e. squared distance < 2500) and leaves every other pixel fully
unchanged. -/
theorem removeBackgroundPass_only_alpha (img : Image) (x y : ℕ) :
    ((removeBackgroundPass img).pix x y).r = (img.pix x y).r ∧
    ((removeBackgroundPass img).pix x y).g = (img.pix x y).g ∧
    ((removeBackgroundPass img).pix x y).b = (img.pix x y).b ∧
    (distSqToBg (img.pix x y) (sampleBackgroundColor img) < 2500 →
      ((removeBackgroundPass img).pix x y).a = 0) ∧
    (2500 ≤ distSqToBg (img.pix x y) (sampleBackgroundColor img) →
      (removeBackgroundPass img).pix x y = img.pix x y) := by
  simp only [removeBackgroundPass]
  split
  case isTrue h =>
    exact ⟨rfl, rfl, rfl, fun _ => rfl, fun h2 => absurd h (not_lt.mpr h2)⟩
  case isFalse h =>
    exact ⟨rfl, rfl, rfl, fun h2 => absurd h2 h, fun _ => rfl⟩

theorem removeBackgroundPass_only_alpha_witness :
    ((removeBackgroundPass flatWhite1).pix 0 0).a = 0 :=
  (removeBackgroundPass_only_alpha flatWhite1 0 0).2.2.2.1
    (of_decide_eq_true (by with_unfolding_all rfl))

/-- C4: whenever floor(width / cellWidth) exceeds maxColumns, the uniform
floor-downscale of the width brings the grid column count to exactly
maxColumns. -/
theorem scaledDims_gridCols (w h cw maxW : ℕ) (hw : 0 < w) (hh : 0 < h)
    (hcw : 0 < cw) (hm : 0 < maxW) (hgt : maxW < w / cw) :
    (scaledDims w h cw maxW).1 / cw = maxW := by
  have hc : 0 < w / cw := lt_trans hm hgt
  have hfloor : (scaledDims w h cw maxW).1 = w * maxW / (w / cw) := by
    simp only [scaledDims, if_pos hgt]
    have hcast : (w : ℚ) * ((maxW : ℚ) / ((w / cw : ℕ) : ℚ)) =
        ((w * maxW : ℕ) : ℚ) / ((w / cw : ℕ) : ℚ) := by
      push_cast
      ring
    rw [hcast, Int.floor_toNat]
    exact Nat.floor_div_nat _ _
  rw [hfloor, Nat.div_div_eq_div_mul]
  set c := w / cw with hcdef
  have hlow : c * cw ≤ w := Nat.div_mul_le_self w cw
  have hr : w < c * cw + cw := by
    have hdm : cw * c + w % cw = w := Nat.div_add_mod w cw
    have hmod : w % cw < cw := Nat.mod_lt w hcw
    calc w = cw * c + w % cw := hdm.symm
      _ < cw * c + cw := by omega
      _ = c * cw + cw := by ring
  refine Nat.div_eq_of_lt_le ?_ ?_
  · calc maxW * (c * cw) = (c * cw) * maxW := by ring
      _ ≤ w * maxW := Nat.mul_le_mul_right _ hlow
  · have hstep : w * maxW < (c * cw + cw) * maxW :=
      mul_lt_mul_of_pos_right hr hm
    have hstep2 : (c * cw + cw) * maxW ≤ (maxW + 1) * (c * cw) := by
      have hcwmul : cw * maxW ≤ cw * c := Nat.mul_le_mul_left _ (le_of_lt hgt)
      calc (c * cw + cw) * maxW = c * cw * maxW + cw * maxW := by ring
        _ ≤ c * cw * maxW + cw * c := Nat.add_le_add_left hcwmul _
        _ = (maxW + 1) * (c * cw) := by ring
    exact lt_of_lt_of_le hstep hstep2

theorem scaledDims_gridCols_witness :
    (scaledDims 1000 700 6 120).1 / 6 = 120 :=
  scaledDims_gridCols 1000 700 6 120 (by decide) (by decide) (by decide)
    (by decide) (by decide)

/-! ## Animation helper lemmas -/

theorem perturbCells_nil (rng : ℕ → ℚ) (k : ℕ) :
    perturbCells rng [] k = ([], k) := rfl

theorem perturbCells_cons (rng : ℕ → ℚ) (c : AsciiCell) (cs : List AsciiCell) (k : ℕ) :
    perturbCells rng (c :: cs) k =
      ((perturbCell rng k c).1 :: (perturbCells rng cs (perturbCell rng k c).2).1,
       (perturbCells rng cs (perturbCell rng k c).2).2) := rfl

theorem animCellFrames_zero (rng : ℕ → ℚ) (base : List AsciiCell) (k : ℕ) :
    animCellFrames rng base 0 k = [] := rfl

theorem animCellFrames_succ (rng : ℕ → ℚ) (base : List AsciiCell) (n k : ℕ) :
    animCellFrames rng base (n + 1) k =
      (perturbCells rng base k).1 ::
        animCellFrames rng base n (perturbCells rng base k).2 := rfl

theorem perturbCell_pos (rng : ℕ → ℚ) (k : ℕ) (c : AsciiCell) :
    ((perturbCell rng k c).1).x = c.x ∧ ((perturbCell rng k c).1).y = c.y ∧
    ((perturbCell rng k c).1).brightness = c.brightness := by
  simp only [perturbCell]
  split_ifs <;> exact ⟨rfl, rfl, rfl⟩

theorem perturbCells_map_pos (rng : ℕ → ℚ) :
    ∀ (cells : List AsciiCell) (k : ℕ),
      ((perturbCells rng cells k).1).map (fun c => (c.x, c.y)) =
        cells.map (fun c => (c.x, c.y)) := by
  intro cells
  induction cells with
  | nil => intro k; rfl
  | cons c cs ih =>
    intro k
    rw [perturbCells_cons]
    simp only [List.map_cons]
    rw [ih]
    have h := perturbCell_pos rng k c
    rw [h.1, h.2.1]

theorem animCellFrames_length (rng : ℕ → ℚ) (base : List AsciiCell) :
    ∀ (n k : ℕ), (animCellFrames rng base n k).length = n := by
  intro n
  induction n with
  | zero => intro k; rfl
  | succ m ih =>
    intro k
    rw [animCellFrames_succ]
    simp [ih]

theorem animCellFrames_mem (rng : ℕ → ℚ) (base : List AsciiCell) :
    ∀ (n k : ℕ) (frame : List AsciiCell), frame ∈ animCellFrames rng base n k →
      ∃ j, frame = (perturbCells rng base j).1 := by
  intro n
  induction n with
  | zero =>
    intro k frame h
    rw [animCellFrames_zero] at h
    exact absurd h (List.not_mem_nil _)
  | succ m ih =>
    intro k frame h
    rw [animCellFrames_succ] at h
    rcases List.mem_cons.mp h with h1 | h2
    · exact ⟨k, h1⟩
    · exact ih _ _ h2

theorem length_ASCII_RAMP : ASCII_RAMP.length = 68 := rfl

theorem jsIndexOf_lt_of_nonneg {c : Char}
    (h : 0 ≤ jsIndexOf ASCII_RAMP c) :
    jsIndexOf ASCII_RAMP c = (ASCII_RAMP.indexOf c : ℤ) ∧
    ASCII_RAMP.indexOf c < ASCII_RAMP.length := by
  have hunf : jsIndexOf ASCII_RAMP c =
      if c ∈ ASCII_RAMP then (ASCII_RAMP.indexOf c : ℤ) else -1 := rfl
  by_cases hmem : c ∈ ASCII_RAMP
  · rw [hunf, if_pos hmem]
    exact ⟨rfl, List.indexOf_lt_length.mpr hmem⟩
  · rw [hunf, if_neg hmem] at h
    norm_num at h

theorem perturbCell_char (rng : ℕ → ℚ) (k : ℕ) (c : AsciiCell)
    (h1 : 0 ≤ rng (k + 1)) (h2 : rng (k + 1) < 1) :
    ((perturbCell rng k c).1).char = c.char ∨
      ∃ j : ℕ, j < ASCII_RAMP.length ∧
        |(j : ℤ) - jsIndexOf ASCII_RAMP c.char| ≤ 1 ∧
        ((perturbCell rng k c).1).char = rampCharAt j ∧ rampCharAt j ≠ ' ' := by
  have hs0 : (0 : ℤ) ≤ ⌊rng (k + 1) * 3⌋ := Int.floor_nonneg.mpr (by positivity)
  have hs2 : ⌊rng (k + 1) * 3⌋ < 3 := by
    rw [Int.floor_lt]
    push_cast
    nlinarith
  simp only [perturbCell]
  split_ifs with hg hidx hblank
  · left; rfl
  · right
    obtain ⟨heq, hlt⟩ := jsIndexOf_lt_of_nonneg hidx
    rw [length_ASCII_RAMP] at hlt
    refine ⟨(max 0 (min ((ASCII_RAMP.length : ℤ) - 1)
      (jsIndexOf ASCII_RAMP c.char + (⌊rng (k + 1) * 3⌋ - 1)))).toNat, ?_, ?_, rfl, hblank⟩
    · simp only [length_ASCII_RAMP, heq]
      omega
    · rw [abs_le]
      simp only [length_ASCII_RAMP, heq]
      omega
  · left; rfl
  · left; rfl

theorem perturbCells_getElem (rng : ℕ → ℚ) :
    ∀ (cells : List AsciiCell) (k i : ℕ) (c b : AsciiCell),
      ((perturbCells rng cells k).1)[i]? = some c → cells[i]? = some b →
      ∃ j, c = (perturbCell rng j b).1 := by
  intro cells
  induction cells with
  | nil =>
    intro k i c b h1 h2
    simp at h2
  | cons hd tl ih =>
    intro k i c b h1 h2
    rw [perturbCells_cons] at h1
    match i with
    | 0 =>
      simp only [List.getElem?_cons_zero, Option.some_inj] at h1 h2
      exact ⟨k, by rw [← h1, h2]⟩
    | Nat.succ m =>
      simp only [List.getElem?_cons_succ] at h1 h2
      exact ih _ m c b h1 h2

/-! ## Animation claim theorems -/

/-- C5: for every base result, frame count ≥ 1 and random stream, the
animation's frame list has frameCount entries, frame 0 is the unmodified
base svg string, and every later frame's cell list has the same length and
the same per-index (x, y) positions as the base cells — only the characters
can differ. -/
theorem animation_preserves_positions (rng : ℕ → ℚ) (base : AsciiSvgResult)
    (frameCount fontSize : ℕ) (color : String) (hfc : 1 ≤ frameCount) :
    (createAsciiSvgAnimation rng base frameCount fontSize color).length = frameCount ∧
    (createAsciiSvgAnimation rng base frameCount fontSize color).head? = some base.svg ∧
    ∀ frame ∈ animCellFrames rng base.cells (frameCount - 1) 0,
      frame.length = base.cells.length ∧
      frame.map (fun c => (c.x, c.y)) = base.cells.map (fun c => (c.x, c.y)) := by
  refine ⟨?_, rfl, ?_⟩
  · simp only [createAsciiSvgAnimation, List.length_cons, List.length_map,
      animCellFrames_length]
    omega
  · intro frame hf
    obtain ⟨j, rfl⟩ := animCellFrames_mem rng base.cells _ _ _ hf
    have hmap := perturbCells_map_pos rng base.cells j
    refine ⟨?_, hmap⟩
    have hlen := congrArg List.length hmap
    simpa using hlen

theorem animation_preserves_positions_witness :
    (createAsciiSvgAnimation (fun _ => (0 : ℚ)) testBase 2 8 "#d4d4d4").head? =
      some testBase.svg :=
  (animation_preserves_positions (fun _ => (0 : ℚ)) testBase 2 8 "#d4d4d4"
    (by decide)).2.1

/-- C6: in every animation frame, the glyph at index i is derived from the
base glyph at index i alone (each frame maps over the base cell list, never
the previous frame): its character is either the base character unchanged,
or a non-blank ramp character whose index is within 1 of the base
character's ramp position after clamping to [0, rampLength - 1] — so a
glyph never turns into the ramp's blank character. -/
theorem animation_perturbation_near_base (rng : ℕ → ℚ)
    (hr : ∀ k, 0 ≤ rng k ∧ rng k < 1) (base : AsciiSvgResult) (frameCount : ℕ) :
    ∀ frame ∈ animCellFrames rng base.cells (frameCount - 1) 0,
      ∀ (i : ℕ) (c b : AsciiCell), frame[i]? = some c → base.cells[i]? = some b →
        c.char = b.char ∨
          ∃ j : ℕ, j < ASCII_RAMP.length ∧
            |(j : ℤ) - jsIndexOf ASCII_RAMP b.char| ≤ 1 ∧
            c.char = rampCharAt j ∧ rampCharAt j ≠ ' ' := by
  intro frame hf i c b h1 h2
  obtain ⟨j0, rfl⟩ := animCellFrames_mem rng base.cells _ _ _ hf
  obtain ⟨j, rfl⟩ := perturbCells_getElem rng base.cells j0 i c b h1 h2
  exact perturbCell_char rng j b (hr (j + 1)).1 (hr (j + 1)).2

/-! ## Flat-image lemmas -/

theorem sum_map_const {α : Type} (l : List α) (f : α → ℚ) (c : ℚ)
    (h : ∀ x ∈ l, f x = c) : (l.map f).sum = l.length * c := by
  induction l with
  | nil => simp
  | cons a as ih =>
    simp only [List.map_cons, List.sum_cons, List.length_cons]
    rw [h a (List.mem_cons_self a as),
      ih (fun x hx => h x (List.mem_cons.mpr (Or.inr hx)))]
    push_cast
    ring

theorem avg_map_const {α : Type} (l : List α) (f : α → ℚ) (c : ℚ)
    (hl : l.length ≠ 0) (h : ∀ x ∈ l, f x = c) :
    (l.map f).sum / (l.length : ℚ) = c := by
  rw [sum_map_const l f c h]
  exact mul_div_cancel_left₀ _ (Nat.cast_ne_zero.mpr hl)

theorem mem_borderSample {w h e : ℕ} {q : ℕ × ℕ} (hq : q ∈ borderSample w h e) :
    q.1 < w ∧ q.2 < h := by
  unfold borderSample at hq
  rw [List.mem_filter] at hq
  obtain ⟨hbase, -⟩ := hq
  rw [List.mem_flatMap] at hbase
  obtain ⟨y, hy, hmem⟩ := hbase
  rw [List.mem_map] at hmem
  obtain ⟨x, hx, rfl⟩ := hmem
  exact ⟨List.mem_range.mp hx, List.mem_range.mp hy⟩

theorem zero_mem_borderSample {w h e : ℕ} (hw : 0 < w) (hh : 0 < h) (he : 0 < e) :
    ((0, 0) : ℕ × ℕ) ∈ borderSample w h e := by
  unfold borderSample
  rw [List.mem_filter]
  refine ⟨?_, ?_⟩
  · rw [List.mem_flatMap]
    exact ⟨0, List.mem_range.mpr hh, List.mem_map.mpr ⟨0, List.mem_range.mpr hw, rfl⟩⟩
  · simp only [Bool.not_eq_true', decide_eq_false_iff_not]
    omega

theorem mem_cbbSample {w h cw ch : ℤ} {q : ℤ × ℤ}
    (hq : q ∈ cbbSample w h cw ch) : 0 ≤ q.1 ∧ q.1 < w ∧ q.2 < h := by
  unfold cbbSample at hq
  rw [List.mem_flatMap] at hq
  obtain ⟨c, -, hq⟩ := hq
  rw [List.mem_flatMap] at hq
  obtain ⟨y, hy, hq⟩ := hq
  rw [List.mem_map] at hq
  obtain ⟨x, hx, rfl⟩ := hq
  rw [List.mem_filter] at hx
  obtain ⟨hx, hx0⟩ := hx
  have hxb := mem_intRange.mp hx
  have hyb := mem_intRange.mp hy
  refine ⟨by simpa using hx0, lt_of_lt_of_le hxb.2 (min_le_right _ _),
    lt_of_lt_of_le hyb.2 (min_le_right _ _)⟩

theorem zero_mem_cbbSample {w h cw ch : ℤ} (hw : 0 < w) (hh : 0 < h)
    (hcw : 0 < cw) (hch : 0 < ch) : ((0 : ℤ), (0 : ℤ)) ∈ cbbSample w h cw ch := by
  have hy : (0 : ℤ) ∈ intRange 0 (min (0 + ch) h) :=
    mem_intRange.mpr ⟨le_rfl, by rw [lt_min_iff]; omega⟩
  have hx : (0 : ℤ) ∈ (intRange 0 (min (0 + cw) w)).filter (fun x => 0 ≤ x) :=
    List.mem_filter.mpr ⟨mem_intRange.mpr ⟨le_rfl, by rw [lt_min_iff]; omega⟩, by simp⟩
  unfold cbbSample
  rw [List.mem_flatMap]
  refine ⟨(0, 0), by simp, ?_⟩
  rw [List.mem_flatMap]
  exact ⟨0, hy, List.mem_map.mpr ⟨0, hx, rfl⟩⟩

theorem sampleBackgroundColor_uniform (img : Image) (p : Pixel)
    (hp : ∀ x y, x < img.width → y < img.height → img.pix x y = p)
    (hpa : p.a = 255) (hw : 0 < img.width) (hh : 0 < img.height) :
    sampleBackgroundColor img =
      (((round p.r : ℤ) : ℚ), ((round p.g : ℤ) : ℚ), ((round p.b : ℤ) : ℚ)) := by
  have he8 : 0 < edgeSizeOf img.width img.height :=
    lt_of_lt_of_le (by norm_num) (le_max_left 8 _)
  have he0 : ((0, 0) : ℕ × ℕ) ∈ (borderSample img.width img.height
      (edgeSizeOf img.width img.height)).filter
      (fun q => ! decide ((img.pix q.1 q.2).a < 128)) := by
    refine List.mem_filter.mpr ⟨zero_mem_borderSample hw hh he8, ?_⟩
    rw [hp 0 0 hw hh, hpa]
    norm_num
  have hlen : ((borderSample img.width img.height (edgeSizeOf img.width img.height)).filter
      (fun q => ! decide ((img.pix q.1 q.2).a < 128))).length ≠ 0 := by
    intro h0
    rw [List.length_eq_zero] at h0
    rw [h0] at he0
    exact List.not_mem_nil _ he0
  have hvals : ∀ q ∈ (borderSample img.width img.height
      (edgeSizeOf img.width img.height)).filter
      (fun q => ! decide ((img.pix q.1 q.2).a < 128)), img.pix q.1 q.2 = p := by
    intro q hq
    have hb := mem_borderSample (List.mem_filter.mp hq).1
    exact hp q.1 q.2 hb.1 hb.2
  simp only [sampleBackgroundColor]
  rw [if_neg hlen]
  rw [avg_map_const _ _ p.r hlen (fun q hq => by rw [hvals q hq]),
    avg_map_const _ _ p.g hlen (fun q hq => by rw [hvals q hq]),
    avg_map_const _ _ p.b hlen (fun q hq => by rw [hvals q hq])]

theorem computeBackgroundBrightness_uniform (img : Image) (L : ℚ)
    (hl : ∀ x y, x < img.width → y < img.height → luminance (img.pix x y) = L)
    (hw : 0 < img.width) (hh : 0 < img.height)
    (cw ch : ℕ) (hcw : 0 < cw) (hch : 0 < ch) :
    computeBackgroundBrightness img cw ch = some L ∨
    computeBackgroundBrightness img cw ch = none := by
  have h0 : ((0 : ℤ), (0 : ℤ)) ∈
      cbbSample (img.width : ℤ) (img.height : ℤ) (cw : ℤ) (ch : ℤ) :=
    zero_mem_cbbSample (by exact_mod_cast hw) (by exact_mod_cast hh)
      (by exact_mod_cast hcw) (by exact_mod_cast hch)
  have hlen : (cbbSample (img.width : ℤ) (img.height : ℤ) (cw : ℤ) (ch : ℤ)).length ≠ 0 := by
    intro hz
    rw [List.length_eq_zero] at hz
    rw [hz] at h0
    exact List.not_mem_nil _ h0
  cases hall : (cbbSample (img.width : ℤ) (img.height : ℤ) (cw : ℤ) (ch : ℤ)).all
      (fun q => 0 ≤ q.2)
  case false =>
    right
    simp only [computeBackgroundBrightness]
    rw [if_neg hlen, if_neg (by rw [hall]; exact Bool.false_ne_true)]
  case true =>
    left
    simp only [computeBackgroundBrightness]
    rw [if_neg hlen, if_pos hall]
    congr 1
    refine avg_map_const _ _ L hlen ?_
    intro q hq
    obtain ⟨hx0, hxw, hyh⟩ := mem_cbbSample hq
    have hy0 : (0 : ℤ) ≤ q.2 := by
      have := List.all_eq_true.mp hall q hq
      simpa using this
    exact hl q.1.toNat q.2.toNat (by omega) (by omega)

theorem effectiveImage_width (img : Image) (opts : AsciiOptions) :
    (effectiveImage img opts).width = img.width := by
  unfold effectiveImage removeBackgroundPass
  split <;> rfl

theorem effectiveImage_height (img : Image) (opts : AsciiOptions) :
    (effectiveImage img opts).height = img.height := by
  unfold effectiveImage removeBackgroundPass
  split <;> rfl

theorem removeBackgroundPass_uniform (img : Image) (p : Pixel)
    (hp : ∀ x y, x < img.width → y < img.height → img.pix x y = p)
    (hpa : p.a = 255) (hw : 0 < img.width) (hh : 0 < img.height) :
    ∀ x y, x < img.width → y < img.height →
      (removeBackgroundPass img).pix x y = { p with a := 0 } := by
  intro x y hx hy
  have hbgc := sampleBackgroundColor_uniform img p hp hpa hw hh
  have hdist : distSqToBg p
      (((round p.r : ℤ) : ℚ), ((round p.g : ℤ) : ℚ), ((round p.b : ℤ) : ℚ)) < 2500 := by
    show (p.r - ((round p.r : ℤ) : ℚ)) ^ 2 + (p.g - ((round p.g : ℤ) : ℚ)) ^ 2 +
      (p.b - ((round p.b : ℤ) : ℚ)) ^ 2 < 2500
    have e1 : (p.r - ((round p.r : ℤ) : ℚ)) ^ 2 ≤ (1 / 2 : ℚ) ^ 2 := by
      rw [← sq_abs]
      exact pow_le_pow_left₀ (abs_nonneg _) (abs_sub_round p.r) 2
    have e2 : (p.g - ((round p.g : ℤ) : ℚ)) ^ 2 ≤ (1 / 2 : ℚ) ^ 2 := by
      rw [← sq_abs]
      exact pow_le_pow_left₀ (abs_nonneg _) (abs_sub_round p.g) 2
    have e3 : (p.b - ((round p.b : ℤ) : ℚ)) ^ 2 ≤ (1 / 2 : ℚ) ^ 2 := by
      rw [← sq_abs]
      exact pow_le_pow_left₀ (abs_nonneg _) (abs_sub_round p.b) 2
    nlinarith
  simp only [removeBackgroundPass]
  rw [hp x y hx hy, hbgc, if_pos hdist]

theorem coveredPixel_false_of_alpha (bg : Option ℚ) {p : Pixel} (h : ¬(128 < p.a)) :
    coveredPixel bg p = false := by
  unfold coveredPixel
  rw [decide_eq_false h, Bool.false_and]

theorem coveredPixel_false_some {v : ℚ} {p : Pixel} (h : ¬(30 < |luminance p - v|)) :
    coveredPixel (some v) p = false := by
  show (decide (128 < p.a) && decide (30 < |luminance p - v|)) = false
  rw [decide_eq_false h, Bool.and_false]

theorem coveredPixel_false_none {p : Pixel} : coveredPixel none p = false := by
  show (decide (128 < p.a) && false) = false
  rw [Bool.and_false]

theorem uniform_covered_false (img : Image) (opts : AsciiOptions) (p : Pixel)
    (hp : ∀ x y, x < img.width → y < img.height → img.pix x y = p)
    (hpa : p.a = 255) (hcw : 0 < opts.cellWidth) (hch : 0 < opts.cellHeight)
    (hw : 0 < img.width) (hh : 0 < img.height) :
    ∀ x y, x < img.width → y < img.height →
      coveredPixel
        (computeBackgroundBrightness (effectiveImage img opts)
          opts.cellWidth opts.cellHeight)
        ((effectiveImage img opts).pix x y) = false := by
  cases hrb : opts.removeBackground
  case true =>
    have heq : effectiveImage img opts = removeBackgroundPass img := by
      simp [effectiveImage, hrb]
    rw [heq]
    intro x y hx hy
    rw [removeBackgroundPass_uniform img p hp hpa hw hh x y hx hy]
    exact coveredPixel_false_of_alpha _ (by show ¬((128 : ℚ) < 0); norm_num)
  case false =>
    have heq : effectiveImage img opts = img := by
      simp [effectiveImage, hrb]
    rw [heq]
    have hbg := computeBackgroundBrightness_uniform img (luminance p)
      (fun x y hx hy => by rw [hp x y hx hy]) hw hh
      opts.cellWidth opts.cellHeight hcw hch
    intro x y hx hy
    rw [hp x y hx hy]
    rcases hbg with hbg | hbg <;> rw [hbg]
    · refine coveredPixel_false_some ?_
      rw [sub_self, abs_zero]
      norm_num
    · exact coveredPixel_false_none

theorem cell_covered_zero (eff : Image) (bg : Option ℚ) (cw chH col row : ℕ)
    (hcov : ∀ x y, x < eff.width → y < eff.height →
      coveredPixel bg (eff.pix x y) = false) :
    cellCoveredPixels eff bg cw chH col row = 0 := by
  unfold cellCoveredPixels
  rw [List.length_eq_zero, List.filter_eq_nil_iff]
  intro q hq
  unfold cellPixels at hq
  rw [List.mem_map] at hq
  obtain ⟨coord, hcoord, rfl⟩ := hq
  obtain ⟨hx, hy⟩ := mem_cellCoords hcoord
  rw [hcov _ _ hx hy]
  norm_num

theorem cell_coverage_zero (eff : Image) (bg : Option ℚ) (cw chH col row : ℕ)
    (hcov : ∀ x y, x < eff.width → y < eff.height →
      coveredPixel bg (eff.pix x y) = false) :
    cellCoverage eff bg cw chH col row = 0 := by
  unfold cellCoverage
  rw [cell_covered_zero eff bg cw chH col row hcov]
  simp

theorem emitCell_none_of_coverage_zero (eff : Image) (bg : Option ℚ)
    (opts : AsciiOptions) (col row : ℕ) (ht0 : 0 < opts.coverageThreshold)
    (hcov : cellCoverage eff bg opts.cellWidth opts.cellHeight col row = 0) :
    emitCell eff bg opts col row = none := by
  unfold emitCell
  rw [hcov, if_pos ht0]

theorem scanCells_nil (eff : Image) (bg : Option ℚ) (opts : AsciiOptions)
    (h : ∀ col row, col < eff.width / opts.cellWidth →
      row < eff.height / opts.cellHeight → emitCell eff bg opts col row = none) :
    scanCells eff bg opts = [] := by
  rw [List.eq_nil_iff_forall_not_mem]
  intro a ha
  unfold scanCells at ha
  rw [List.mem_flatMap] at ha
  obtain ⟨row, hrow, hmem⟩ := ha
  rw [List.mem_filterMap] at hmem
  obtain ⟨col, hcol, hemit⟩ := hmem
  rw [List.mem_range] at hrow hcol
  rw [h col row hcol hrow] at hemit
  exact Option.noConfusion hemit

theorem width_pos_of_col_lt {w cw col : ℕ} (h : col < w / cw) : 0 < w := by
  rcases Nat.eq_zero_or_pos w with h0 | h1
  · rw [h0, Nat.zero_div] at h
    exact absurd h (Nat.not_lt_zero col)
  · exact h1

/-- C3 (amended): for every configuration with positive cell dimensions and
coverageThreshold in (0, 1], and every image all of whose in-bounds pixels
carry one opaque color, every visited cell's coverage ratio is 0 and
imageToAsciiSvg emits zero glyphs.  (The claim's original range [0, 1] fails
at coverageThreshold = 0, where the `coverage < threshold` skip never fires
— see the counterexample.) -/
theorem flat_image_zero_coverage_no_glyphs (img : Image) (opts : AsciiOptions)
    (p : Pixel)
    (hp : ∀ x y, x < img.width → y < img.height → img.pix x y = p)
    (hpa : p.a = 255)
    (hcw : 0 < opts.cellWidth) (hch : 0 < opts.cellHeight)
    (ht0 : 0 < opts.coverageThreshold) (ht1 : opts.coverageThreshold ≤ 1) :
    (∀ col row, col < img.width / opts.cellWidth →
      row < img.height / opts.cellHeight →
      cellCoverage (effectiveImage img opts)
        (computeBackgroundBrightness (effectiveImage img opts)
          opts.cellWidth opts.cellHeight)
        opts.cellWidth opts.cellHeight col row = 0) ∧
    (imageToAsciiSvg img opts).cells = [] := by
  have hW := effectiveImage_width img opts
  have hH := effectiveImage_height img opts
  have hcells : (imageToAsciiSvg img opts).cells =
      scanCells (effectiveImage img opts)
        (computeBackgroundBrightness (effectiveImage img opts)
          opts.cellWidth opts.cellHeight) opts := rfl
  constructor
  · intro col row hcol hrow
    have hw : 0 < img.width := width_pos_of_col_lt hcol
    have hh : 0 < img.height := width_pos_of_col_lt hrow
    refine cell_coverage_zero _ _ _ _ _ _ ?_
    intro x y hx hy
    rw [hW] at hx
    rw [hH] at hy
    exact uniform_covered_false img opts p hp hpa hcw hch hw hh x y hx hy
  · rw [hcells]
    refine scanCells_nil _ _ _ ?_
    intro col row hcol hrow
    rw [hW] at hcol
    rw [hH] at hrow
    have hw : 0 < img.width := width_pos_of_col_lt hcol
    have hh : 0 < img.height := width_pos_of_col_lt hrow
    refine emitCell_none_of_coverage_zero _ _ _ _ _ ht0 ?_
    refine cell_coverage_zero _ _ _ _ _ _ ?_
    intro x y hx hy
    rw [hW] at hx
    rw [hH] at hy
    exact uniform_covered_false img opts p hp hpa hcw hch hw hh x y hx hy

theorem flat_image_zero_coverage_no_glyphs_witness :
    (imageToAsciiSvg flatWhite1 defaultOptions).cells = [] :=
  (flat_image_zero_coverage_no_glyphs flatWhite1 defaultOptions whitePixel
    (fun x y _ _ => rfl) rfl (by decide) (by decide)
    (by norm_num [defaultOptions]) (by norm_num [defaultOptions])).2

theorem animation_perturbation_near_base_witness :
    (AsciiCell.mk '@' 0 9 255).char = (AsciiCell.mk '@' 0 9 255).char ∨
      ∃ j : ℕ, j < ASCII_RAMP.length ∧
        |(j : ℤ) - jsIndexOf ASCII_RAMP (AsciiCell.mk '@' 0 9 255).char| ≤ 1 ∧
        (AsciiCell.mk '@' 0 9 255).char = rampCharAt j ∧ rampCharAt j ≠ ' ' := by
  have hfr : (perturbCells (fun _ => (0 : ℚ)) testBase.cells 0).1 ∈
      animCellFrames (fun _ => (0 : ℚ)) testBase.cells 1 0 :=
    List.mem_cons_self _ _
  have h1 : ((perturbCells (fun _ => (0 : ℚ)) testBase.cells 0).1)[0]? =
      some (AsciiCell.mk '@' 0 9 255) := of_decide_eq_true (by with_unfolding_all rfl)
  have h2 : testBase.cells[0]? = some (AsciiCell.mk '@' 0 9 255) := rfl
  exact animation_perturbation_near_base (fun _ => (0 : ℚ))
    (fun k => ⟨le_rfl, by norm_num⟩) testBase 2 _ hfr 0 _ _ h1 h2

end AsciiMotion
